import Mathlib

/-!
# Verification of the country-vote-api voting workflow

Shallow embedding of the repository's core services:

* `CountryVote.RestCountry` — the reference country record returned by the
  REST Countries API (`src/countries/countries.service.ts`, interface
  `RestCountry`).
* `CountryVote.CountryRow` / `CountryVote.UserRow` / `CountryVote.DB` — the
  persisted relations (Prisma models `Country` and `User`) together with a
  fresh-id source; Prisma's surrogate ids are modelled as naturals drawn
  from `DB.nextId`.
* `CountryVote.submitVote`, `CountryVote.getTopCountries`,
  `CountryVote.searchCountries` — `VotesService`
  (`src/votes/votes.service.ts`).
* `CountryVote.getAllCountries`, `CountryVote.getCountryByCode`,
  `CountryVote.getCountriesByCodes` — `CountriesService`
  (`src/countries/countries.service.ts`), with the process-lifetime cache
  made explicit as a `CacheState` value and the network modelled as the
  response the external endpoint would give if contacted.

JavaScript truthiness that the source relies on (`x || 'N/A'`,
`!query`, `capital?.[0]`) is translated explicitly: `none` and the empty
string are the falsy `String`-typed values.
-/

namespace CountryVote

/-- Reference country record fetched from the REST Countries API
(interface `RestCountry` in `src/countries/countries.service.ts`):
`name.common`/`name.official`, `cca3`, optional `capital` list, `region`,
optional `subregion`. -/
structure RestCountry where
  nameCommon : String
  nameOfficial : String
  cca3 : String
  capital : Option (List String)
  region : String
  subregion : Option String
deriving Repr, DecidableEq

/-- A persisted `Country` row (Prisma model `Country`): surrogate `id`,
unique `code`, `name`, nullable `capital`, `region`, `subRegion` and the
denormalized `votes` counter. -/
structure CountryRow where
  id : Nat
  code : String
  name : String
  capital : Option String
  region : String
  subRegion : String
  votes : Nat
deriving Repr, DecidableEq

/-- A persisted `User` row (Prisma model `User`): surrogate `id`, `name`,
unique `email`, and the `countryId` foreign key. -/
structure UserRow where
  id : Nat
  name : String
  email : String
  countryId : Nat
deriving Repr, DecidableEq

/-- The persistence state: the two relations plus the supply of fresh
surrogate ids (Prisma generates a fresh uuid per inserted row; we model it
as a counter strictly above every id already present). -/
structure DB where
  countries : List CountryRow
  users : List UserRow
  nextId : Nat
deriving Repr, DecidableEq

/-- Well-formedness of a database state, exactly the guarantees the Prisma
schema enforces: surrogate ids are unique, `Country.code` and `User.email`
carry unique indexes, every stored id is below the fresh-id supply, and
`User.countryId` is a valid foreign key into `Country`. -/
def DB.wf (db : DB) : Prop :=
  (db.countries.map (fun c => c.id)).Nodup ∧
  (db.countries.map (fun c => c.code)).Nodup ∧
  (db.users.map (fun u => u.email)).Nodup ∧
  (∀ c ∈ db.countries, c.id < db.nextId) ∧
  (∀ u ∈ db.users, u.id < db.nextId) ∧
  (∀ u ∈ db.users, ∃ c ∈ db.countries, u.countryId = c.id)

instance (db : DB) : Decidable db.wf := by
  unfold DB.wf; infer_instance

/-- JavaScript `x || "N/A"` on a possibly-absent string: `undefined`/`null`
and the empty string are falsy, anything else is returned as is. -/
def orNA : Option String → String
  | none => "N/A"
  | some s => if s = "" then "N/A" else s

/-- Models `db.user.findUnique({ where: { email } })`. -/
def findUserByEmail (db : DB) (email : String) : Option UserRow :=
  db.users.find? (fun u => u.email == email)

/-- Models `db.country.findUnique({ where: { code } })`. -/
def findCountryByCode (db : DB) (code : String) : Option CountryRow :=
  db.countries.find? (fun c => c.code == code)

/-- Models `countries.find((c) => c.cca3 === code) || null`
(`CountriesService.getCountryByCode`, the lookup itself): exact,
case-sensitive comparison against the `cca3` field. -/
def findByCode (countries : List RestCountry) (code : String) :
    Option RestCountry :=
  countries.find? (fun c => c.cca3 == code)

/-- The `Country` row built by `VotesService.submitVote` when the code has
never been voted for (lines 64–73 of `src/votes/votes.service.ts`):
`capital: countryData.capital?.[0] || 'N/A'`,
`region: countryData.region`, `subRegion: countryData.subregion || 'N/A'`,
`votes: 0`. -/
def newCountryRow (id : Nat) (code : String) (cd : RestCountry) :
    CountryRow :=
  { id := id
    code := code
    name := cd.nameCommon
    capital := some (orNA (cd.capital.bind List.head?))
    region := cd.region
    subRegion := orNA cd.subregion
    votes := 0 }

/-- Models `db.country.update({ where: { id }, data: { votes: { increment: 1 } } })`:
bump the `votes` counter of the row with the given surrogate id. -/
def incrVotes (i : Nat) (l : List CountryRow) : List CountryRow :=
  l.map (fun c => if c.id = i then { c with votes := c.votes + 1 } else c)

/-- The typed failure signals `submitVote` raises itself:
`ConflictException` (duplicate email) and `BadRequestException`
(invalid country code). -/
inductive VoteError where
  | conflict
  | badRequest
deriving Repr, DecidableEq

/-- Models `VotesService.submitVote` (lines 24–103 of
`src/votes/votes.service.ts`):
1. reject a duplicate email with `ConflictException`;
2. validate the code against the reference data, rejecting an unknown code
   with `BadRequestException`;
3. lazily create the `Country` row (see `newCountryRow`) if the code was
   never voted for;
4. in one atomic transaction, insert the `User` row and increment the
   country's `votes` counter.
The happy path returns the updated database; the error paths leave the
database untouched (nothing was written before the transaction, and the
transaction is all-or-nothing). -/
def submitVote (ref : List RestCountry) (db : DB)
    (name email countryCode : String) : Except VoteError DB :=
  match findUserByEmail db email with
  | some _ => .error .conflict
  | none =>
    match findByCode ref countryCode with
    | none => .error .badRequest
    | some countryData =>
      let found := findCountryByCode db countryCode
      let country := match found with
        | some c => c
        | none => newCountryRow db.nextId countryCode countryData
      let db1 := match found with
        | some _ => db
        | none =>
          { db with
              countries := db.countries ++
                [newCountryRow db.nextId countryCode countryData]
              nextId := db.nextId + 1 }
      .ok { db1 with
              users := db1.users ++
                [{ id := db1.nextId
                   name := name
                   email := email
                   countryId := country.id }]
              countries := incrVotes country.id db1.countries
              nextId := db1.nextId + 1 }

/-- The database as the caller observes it after `submitVote`: on success
the updated state, on either typed failure the unchanged input state (the
failures are raised before anything is written). -/
def stateAfter (ref : List RestCountry) (db : DB)
    (name email countryCode : String) : DB :=
  match submitVote ref db name email countryCode with
  | .ok db' => db'
  | .error _ => db

/-- The `votes` counter currently stored for a code (0 when the country
was never materialized). -/
def votesOf (db : DB) (code : String) : Nat :=
  match findCountryByCode db code with
  | some c => c.votes
  | none => 0

/-- The DTO shape returned by the leaderboard reads
(`TopCountryDto`): country name, enrichment fields, votes, 1-based rank. -/
structure TopCountryDto where
  country : String
  capital : String
  region : String
  subRegion : String
  votes : Nat
  rank : Nat
deriving Repr, DecidableEq

/-- Models `country.map((country, index) => ({ ..., rank: index + 1 }))`
(lines 127–134 and 206–213 of `src/votes/votes.service.ts`): turn a row
into its DTO, `rank` being one more than its position.  `i` is the
position of the row in the query result. -/
def toDto (i : Nat) (c : CountryRow) : TopCountryDto :=
  { country := c.name
    capital := orNA c.capital
    region := c.region
    subRegion := c.subRegion
    votes := c.votes
    rank := i + 1 }

/-- Map a query result to DTOs, ranking from position `i` on. -/
def rankRows (i : Nat) : List CountryRow → List TopCountryDto
  | [] => []
  | c :: cs => toDto i c :: rankRows (i + 1) cs

/-- Stable insertion into a votes-descending list: the new row goes in
front of the first strictly smaller tally, after any equal one. -/
def insertDesc (c : CountryRow) : List CountryRow → List CountryRow
  | [] => [c]
  | d :: ds => if d.votes < c.votes then c :: d :: ds else d :: insertDesc c ds

/-- Models `orderBy: { votes: 'desc' }` as a stable sort of the stored rows. -/
def sortDesc : List CountryRow → List CountryRow
  | [] => []
  | c :: cs => insertDesc c (sortDesc cs)

/-- The shared shape of both leaderboard queries:
`findMany({ where, orderBy: { votes: 'desc' }, take: 10 })` followed by
the DTO/rank mapping.  `p` is the `where` filter. -/
def queryRows (db : DB) (p : CountryRow → Bool) : List TopCountryDto :=
  rankRows 0 ((sortDesc (db.countries.filter p)).take 10)

/-- Models `VotesService.getTopCountries` (lines 108–142 of
`src/votes/votes.service.ts`): rows with `votes > 0`, votes descending,
first 10, ranked by position. -/
def getTopCountries (db : DB) : List TopCountryDto :=
  queryRows db (fun c => decide (0 < c.votes))

/-- JavaScript `s.trim()`, as the character list it leaves: leading and
trailing whitespace stripped. -/
def jsTrim (s : String) : List Char :=
  ((s.toList.dropWhile Char.isWhitespace).reverse.dropWhile
    Char.isWhitespace).reverse

/-- Tests whether `q` occurs as a contiguous run inside `hay`. -/
def infixOf (q : List Char) : List Char → Bool
  | [] => q.isEmpty
  | c :: t => q.isPrefixOf (c :: t) || infixOf q t

/-- Prisma `field: { contains: query, mode: 'insensitive' }`:
case-insensitive substring containment, both sides lowered
character-wise. -/
def containsFold (hay q : String) : Bool :=
  infixOf (q.toList.map Char.toLower) (hay.toList.map Char.toLower)

/-- The `OR` block of `VotesService.searchCountries` (lines 166–191):
the query appears case-insensitively in `name`, `capital`, `region` or
`subRegion`; the nullable `capital` column matches only when present. -/
def matchesSearch (q : String) (c : CountryRow) : Bool :=
  containsFold c.name q ||
  (match c.capital with
   | some cap => containsFold cap q
   | none => false) ||
  containsFold c.region q ||
  containsFold c.subRegion q

/-- Models `VotesService.searchCountries` (lines 148–218 of
`src/votes/votes.service.ts`).  The `query` parameter is an
`Option String` because the HTTP layer passes `undefined` when the `q`
query parameter is absent; `if (!query || query.trim().length === 0)`
falls back to `getTopCountries` for `undefined`/`null`, the empty string
and all-whitespace strings.  Otherwise the rows are filtered by
`votes > 0 AND (OR-block)`, votes descending, first 10, ranked by
position. -/
def searchCountries (db : DB) (query : Option String) :
    List TopCountryDto :=
  match query with
  | none => getTopCountries db
  | some q =>
    if q = "" || (jsTrim q).length == 0 then getTopCountries db
    else queryRows db (fun c => decide (0 < c.votes) && matchesSearch q c)

/-! ## The Reference Data Gateway (`CountriesService`) -/

/-- The process-lifetime cache of `CountriesService`
(`private countriesCache: RestCountry[] | null = null`). -/
structure CacheState where
  cache : Option (List RestCountry)
deriving Repr, DecidableEq

/-- What the external REST Countries endpoint would answer if contacted:
either the parsed country list or a network/parse failure. -/
abbrev NetResponse := Except String (List RestCountry)

/-- Models `CountriesService.getAllCountries` (lines 23–46 of
`src/countries/countries.service.ts`), with the outbound `axios.get`
made explicit: `net` is the response the endpoint would give if
contacted.  Returns the produced value, the updated cache, and the
number of outbound fetches issued by this call (0 on a cache hit,
1 otherwise).  A successful fetch stores `response.data` in the cache;
a failed fetch leaves the cache empty and fails with the generic
`'Failed to fetch countries'` error. -/
def getAllCountries (net : NetResponse) (s : CacheState) :
    Except String (List RestCountry) × CacheState × Nat :=
  match s.cache with
  | some cached => (.ok cached, s, 0)
  | none =>
    match net with
    | .ok data => (.ok data, { cache := some data }, 1)
    | .error _ => (.error "Failed to fetch countries", s, 1)

/-- Models `CountriesService.getCountryByCode` (lines 48–60): fetch (or reuse)
the country list, then `countries.find((c) => c.cca3 === code) || null`. -/
def getCountryByCode (net : NetResponse) (s : CacheState) (code : String) :
    Except String (Option RestCountry) × CacheState × Nat :=
  match getAllCountries net s with
  | (.ok countries, s', k) => (.ok (findByCode countries code), s', k)
  | (.error e, s', k) => (.error e, s', k)

/-- JavaScript `Map.set` on an insertion-ordered association list:
overwrite the value of an existing key in place, append a fresh key. -/
def mapSet (m : List (String × RestCountry)) (k : String)
    (v : RestCountry) : List (String × RestCountry) :=
  if m.any (fun p => p.1 == k) then
    m.map (fun p => if p.1 == k then (k, v) else p)
  else m ++ [(k, v)]

/-- Models `CountriesService.getCountriesByCodes` (lines 62–83): fetch (or
reuse) the country list, then collect into a map every record whose
`cca3` is among the requested codes. -/
def getCountriesByCodes (net : NetResponse) (s : CacheState)
    (codes : List String) :
    Except String (List (String × RestCountry)) × CacheState × Nat :=
  match getAllCountries net s with
  | (.ok countries, s', k) =>
    (.ok (countries.foldl
      (fun m c => if codes.contains c.cca3 then mapSet m c.cca3 c else m)
      []), s', k)
  | (.error e, s', k) => (.error e, s', k)

/-- Repeated calls to `getAllCountries` threading the cache:
`nets` gives, call by call, the response the endpoint would give if that
call contacted it.  Produces the per-call results, the final cache, and
the total number of outbound fetches. -/
def runCalls : List NetResponse → CacheState →
    List (Except String (List RestCountry)) × CacheState × Nat
  | [], s => ([], s, 0)
  | net :: nets, s =>
    match getAllCountries net s with
    | (r, s', k) =>
      match runCalls nets s' with
      | (rs, s'', k') => (r :: rs, s'', k + k')

/-! ## The error-propagation policy of `submitVote` -/

/-- The exception values that can cross `submitVote`'s catch block:
the two typed signals it raises itself, NestJS's
`InternalServerErrorException` (which re-wrapping would produce), and
any other error, carried with its message. -/
inductive HttpException where
  | conflict (msg : String)
  | badRequest (msg : String)
  | internalServerError (msg : String)
  | generic (msg : String)
deriving Repr, DecidableEq

/-- The catch block of `VotesService.submitVote` (lines 93–102):
`ConflictException` and `BadRequestException` are re-thrown; every other
error is logged with status 500 and then re-thrown as well —
`throw error` both times, so the value leaving the block is the value
that entered it. -/
def submitVoteCatch (e : HttpException) : HttpException :=
  match e with
  | .conflict m => .conflict m
  | .badRequest m => .badRequest m
  | e => e

/-- Modelled from the spec: the catch block the spec describes, in which
an exception that is not one of the two typed signals "is re-wrapped and
surfaced as a server-side error" — i.e. replaced by an
`InternalServerErrorException`. -/
def submitVoteCatchSpec (e : HttpException) : HttpException :=
  match e with
  | .conflict m => .conflict m
  | .badRequest m => .badRequest m
  | _ => .internalServerError "Internal Server Error"

/-! ## Lemmas about the write path -/

/-- Shape of the success state when the country row already exists. -/
theorem submitVote_ok_of_found (ref : List RestCountry) (db : DB)
    (name email code : String) (cd : RestCountry) (c : CountryRow)
    (hu : findUserByEmail db email = none)
    (hc : findByCode ref code = some cd)
    (hf : findCountryByCode db code = some c) :
    submitVote ref db name email code =
      .ok { countries := incrVotes c.id db.countries
            users := db.users ++
              [{ id := db.nextId, name := name, email := email
                 countryId := c.id }]
            nextId := db.nextId + 1 } := by
  simp [submitVote, hu, hc, hf]

/-- Shape of the success state when the country row is lazily created. -/
theorem submitVote_ok_of_new (ref : List RestCountry) (db : DB)
    (name email code : String) (cd : RestCountry)
    (hu : findUserByEmail db email = none)
    (hc : findByCode ref code = some cd)
    (hf : findCountryByCode db code = none) :
    submitVote ref db name email code =
      .ok { countries :=
              incrVotes db.nextId
                (db.countries ++ [newCountryRow db.nextId code cd])
            users := db.users ++
              [{ id := db.nextId + 1, name := name, email := email
                 countryId := db.nextId }]
            nextId := db.nextId + 2 } := by
  simp [submitVote, hu, hc, hf, newCountryRow]

/-- Lemma: `incrVotes` leaves a list alone when no row carries the id. -/
theorem incrVotes_of_not_mem (i : Nat) (l : List CountryRow)
    (h : ∀ c ∈ l, c.id ≠ i) : incrVotes i l = l := by
  unfold incrVotes
  rw [List.map_congr_left (g := id) ?_, List.map_id]
  intro c hc
  simp [h c hc]

theorem incrVotes_append (i : Nat) (l₁ l₂ : List CountryRow) :
    incrVotes i (l₁ ++ l₂) = incrVotes i l₁ ++ incrVotes i l₂ := by
  simp [incrVotes]

/-- Lookup by code commutes with a vote increment, because the increment
does not touch the `code` column. -/
theorem find_code_incrVotes (i : Nat) (x : String) (l : List CountryRow) :
    (incrVotes i l).find? (fun c => c.code == x) =
      Option.map (fun c => if c.id = i then { c with votes := c.votes + 1 }
        else c) (l.find? (fun c => c.code == x)) := by
  unfold incrVotes
  rw [List.find?_map]
  have hp : ((fun c : CountryRow => c.code == x) ∘ fun c =>
      if c.id = i then { c with votes := c.votes + 1 } else c) =
      (fun c : CountryRow => c.code == x) := by
    funext c
    by_cases h : c.id = i <;> simp [h]
  rw [hp]

/-- Rows in a well-formed list are determined by their id. -/
theorem id_inj_of_nodup (l : List CountryRow)
    (h : (l.map (fun c => c.id)).Nodup) :
    ∀ a ∈ l, ∀ b ∈ l, a.id = b.id → a = b := by
  intro a ha b hb hab
  exact List.inj_on_of_nodup_map h ha hb hab

/-- C2: `submitVote` fails with the duplicate-vote signal (Conflict)
exactly when a `User` row with the given email already exists — the
check precedes country validation, so the equivalence holds whatever the
country code is; it fails with the invalid-country signal (Bad Request)
exactly when the email is fresh and the code is absent from the
reference data; and on either failure the database is unchanged. -/
theorem submitVote_error_cases (ref : List RestCountry) (db : DB)
    (name email code : String) :
    (submitVote ref db name email code = .error .conflict ↔
      ∃ u ∈ db.users, u.email = email) ∧
    (submitVote ref db name email code = .error .badRequest ↔
      ((∀ u ∈ db.users, u.email ≠ email) ∧ ∀ c ∈ ref, c.cca3 ≠ code)) ∧
    (∀ e, submitVote ref db name email code = .error e →
      stateAfter ref db name email code = db) := by
  refine ⟨?_, ?_, ?_⟩
  · constructor
    · intro h
      rcases hu : findUserByEmail db email with _ | u
      · exfalso
        rcases hc : findByCode ref code with _ | cd
        · simp [submitVote, hu, hc] at h
        · rcases hf : findCountryByCode db code with _ | c
          · rw [submitVote_ok_of_new ref db name email code cd hu hc hf] at h
            exact Except.noConfusion h
          · rw [submitVote_ok_of_found ref db name email code cd c hu hc hf]
              at h
            exact Except.noConfusion h
      · refine ⟨u, List.mem_of_find?_eq_some hu, ?_⟩
        have := List.find?_some hu
        simpa using this
    · rintro ⟨u, hmem, heq⟩
      have hsome : (findUserByEmail db email).isSome := by
        rw [findUserByEmail, List.find?_isSome]
        exact ⟨u, hmem, by simp [heq]⟩
      rcases hu : findUserByEmail db email with _ | v
      · rw [hu] at hsome; simp at hsome
      · simp [submitVote, hu]
  · constructor
    · intro h
      rcases hu : findUserByEmail db email with _ | u
      · rcases hc : findByCode ref code with _ | cd
        · refine ⟨?_, ?_⟩
          · intro u hmem heq
            have := List.find?_eq_none.mp hu u hmem
            simp [heq] at this
          · intro c hmem heq
            have := List.find?_eq_none.mp hc c hmem
            simp [heq] at this
        · exfalso
          rcases hf : findCountryByCode db code with _ | c
          · rw [submitVote_ok_of_new ref db name email code cd hu hc hf] at h
            exact Except.noConfusion h
          · rw [submitVote_ok_of_found ref db name email code cd c hu hc hf]
              at h
            exact Except.noConfusion h
      · exfalso
        simp [submitVote, hu] at h
    · rintro ⟨hnou, hnoc⟩
      have hu : findUserByEmail db email = none := by
        rw [findUserByEmail, List.find?_eq_none]
        intro u hmem
        simp [hnou u hmem]
      have hc : findByCode ref code = none := by
        rw [findByCode, List.find?_eq_none]
        intro c hmem
        simp [hnoc c hmem]
      simp [submitVote, hu, hc]
  · intro e h
    simp [stateAfter, h]

/-- C1: on a fresh email and a country code present in the reference
data, `submitVote` succeeds; afterwards exactly one new `User` row holds
the submitted name and email and references the resolved country; the
target country's `votes` counter is exactly one greater; at most one
`Country` row was created (none when the code already had a row); and no
other country row changed in either direction. -/
theorem submitVote_success_effects (ref : List RestCountry) (db : DB)
    (name email code : String) (cd : RestCountry)
    (hwf : db.wf)
    (hu : findUserByEmail db email = none)
    (hc : findByCode ref code = some cd) :
    ∃ db', submitVote ref db name email code = .ok db' ∧
      (∃ uid c', findCountryByCode db' code = some c' ∧
        db'.users = db.users ++
          [{ id := uid, name := name, email := email
             countryId := c'.id }]) ∧
      votesOf db' code = votesOf db code + 1 ∧
      (∀ r ∈ db.countries, r.code ≠ code → r ∈ db'.countries) ∧
      (∀ r ∈ db'.countries, r.code ≠ code → r ∈ db.countries) ∧
      db'.countries.length = db.countries.length +
        (if (findCountryByCode db code).isSome then 0 else 1) := by
  obtain ⟨hids, hcodes, hemails, hclt, hult, hfk⟩ := hwf
  rcases hf : findCountryByCode db code with _ | c
  · -- the country row is created lazily
    have hf' : db.countries.find? (fun r => r.code == code) = none := hf
    have hnotmem : ∀ r ∈ db.countries, r.id ≠ db.nextId :=
      fun r hr => Nat.ne_of_lt (hclt r hr)
    have hincr : incrVotes db.nextId
        (db.countries ++ [newCountryRow db.nextId code cd]) =
        db.countries ++
          [{ newCountryRow db.nextId code cd with votes := 1 }] := by
      rw [incrVotes_append, incrVotes_of_not_mem _ _ hnotmem]
      simp [incrVotes, newCountryRow]
    refine ⟨_, submitVote_ok_of_new ref db name email code cd hu hc hf, ?_⟩
    rw [hincr]
    have hfind' : (db.countries ++
        [{ newCountryRow db.nextId code cd with votes := 1 }]).find?
          (fun r => r.code == code) =
        some { newCountryRow db.nextId code cd with votes := 1 } := by
      rw [List.find?_append, hf']
      simp [newCountryRow]
    refine ⟨⟨db.nextId + 1,
      { newCountryRow db.nextId code cd with votes := 1 },
      hfind', rfl⟩, ?_, ?_, ?_, ?_⟩
    · simp only [votesOf, findCountryByCode]
      rw [hfind', hf']
    · intro r hr _
      exact List.mem_append_left _ hr
    · intro r hr hne
      rcases List.mem_append.mp hr with h | h
      · exact h
      · exfalso
        apply hne
        simp at h
        rw [h]
        rfl
    · simp [hf]
  · -- the country row already exists
    have hf' : db.countries.find? (fun r => r.code == code) = some c := hf
    have hccode : c.code = code := by
      have := List.find?_some hf
      simpa using this
    have hcmem : c ∈ db.countries := List.mem_of_find?_eq_some hf
    refine ⟨_, submitVote_ok_of_found ref db name email code cd c hu hc hf,
      ?_⟩
    have hlist : (incrVotes c.id db.countries).find?
        (fun r => r.code == code) = some { c with votes := c.votes + 1 } := by
      rw [find_code_incrVotes, hf']
      simp
    have hfind' : findCountryByCode
        { countries := incrVotes c.id db.countries
          users := db.users ++
            [{ id := db.nextId, name := name, email := email
               countryId := c.id }]
          nextId := db.nextId + 1 } code =
        some { c with votes := c.votes + 1 } := hlist
    refine ⟨⟨db.nextId, { c with votes := c.votes + 1 }, hfind', rfl⟩,
      ?_, ?_, ?_, ?_⟩
    · simp only [votesOf, findCountryByCode]
      rw [hlist, hf']
    · intro r hr hne
      have hrid : r.id ≠ c.id := by
        intro h
        exact hne (by rw [id_inj_of_nodup db.countries hids r hr c hcmem h,
          hccode])
      refine List.mem_map.mpr ⟨r, hr, ?_⟩
      simp [hrid]
    · intro r hr hne
      rcases List.mem_map.mp hr with ⟨s, hs, hmap⟩
      by_cases hsid : s.id = c.id
      · exfalso
        have hsc : s = c := id_inj_of_nodup db.countries hids s hs c hcmem
          hsid
        rw [hsc] at hmap
        simp at hmap
        apply hne
        rw [← hmap, hccode]
      · rw [if_neg hsid] at hmap
        rw [← hmap]
        exact hs
    · simp [hf, incrVotes]

/-- The tally invariant: every country's `votes` counter equals the
number of `User` rows whose `countryId` references it. -/
def countersConsistent (db : DB) : Prop :=
  ∀ c ∈ db.countries,
    c.votes = (db.users.filter (fun u => u.countryId == c.id)).length

instance (db : DB) : Decidable (countersConsistent db) := by
  unfold countersConsistent; infer_instance

/-- Appending one user that does not reference the counted country
leaves the reference count unchanged. -/
theorem filter_users_append_neg (p : UserRow → Bool) (l : List UserRow)
    (u : UserRow) (h : p u = false) :
    List.filter p (l ++ [u]) = List.filter p l := by
  rw [List.filter_append]
  simp [List.filter, h]

/-- Appending one user that does reference the counted country grows the
reference count by one. -/
theorem filter_users_append_pos (p : UserRow → Bool) (l : List UserRow)
    (u : UserRow) (h : p u = true) :
    (List.filter p (l ++ [u])).length = (List.filter p l).length + 1 := by
  rw [List.filter_append]
  simp [List.filter, h]

/-- C3: the tally invariant is preserved by `submitVote` on every path —
on success the `User` insert and the `votes` increment land together (the
transaction is atomic, so the model applies both in one step), and on
failure nothing changes. -/
theorem submitVote_preserves_counters (ref : List RestCountry) (db : DB)
    (name email code : String)
    (hwf : db.wf) (hcons : countersConsistent db) :
    countersConsistent (stateAfter ref db name email code) := by
  obtain ⟨hids, hcodes, hemails, hclt, hult, hfk⟩ := hwf
  rcases hu : findUserByEmail db email with _ | u0
  case some =>
    have hres : submitVote ref db name email code = .error .conflict := by
      simp [submitVote, hu]
    simp only [stateAfter, hres]
    exact hcons
  rcases hc : findByCode ref code with _ | cd
  case none =>
    have hres : submitVote ref db name email code = .error .badRequest := by
      simp [submitVote, hu, hc]
    simp only [stateAfter, hres]
    exact hcons
  rcases hf : findCountryByCode db code with _ | c
  · -- lazy creation: the fresh row ends at tally 1 with one referencing user
    have hnotmem : ∀ r ∈ db.countries, r.id ≠ db.nextId :=
      fun r hr => Nat.ne_of_lt (hclt r hr)
    have hincr : incrVotes db.nextId
        (db.countries ++ [newCountryRow db.nextId code cd]) =
        db.countries ++
          [{ newCountryRow db.nextId code cd with votes := 1 }] := by
      rw [incrVotes_append, incrVotes_of_not_mem _ _ hnotmem]
      simp [incrVotes, newCountryRow]
    have hres := submitVote_ok_of_new ref db name email code cd hu hc hf
    simp only [stateAfter, hres]
    intro c'' h''
    simp only at h'' ⊢
    rw [hincr] at h''
    rcases List.mem_append.mp h'' with h | h
    · -- an old row: its counter and its referencing users are untouched
      have hcid : c''.id ≠ db.nextId := hnotmem c'' h
      rw [filter_users_append_neg _ _ _ (by simp [Ne.symm hcid])]
      exact hcons c'' h
    · -- the fresh row: tally 1, referenced by exactly the new user
      simp at h
      have hcid : c''.id = db.nextId := by rw [h]; rfl
      have hcv : c''.votes = 1 := by rw [h]
      have hold : List.filter (fun u => u.countryId == c''.id) db.users =
          [] := by
        rw [List.filter_eq_nil_iff]
        intro u' hu'
        obtain ⟨cref, hcref, heq⟩ := hfk u' hu'
        have hne : u'.countryId ≠ c''.id := by
          rw [heq, hcid]
          exact Nat.ne_of_lt (hclt cref hcref)
        simp [hne]
      rw [filter_users_append_pos _ _ _ (by simp [hcid]), hold]
      simpa using hcv
  · -- existing country: its counter and its referencing users grow by one
    have hcmem : c ∈ db.countries := List.mem_of_find?_eq_some hf
    have hres := submitVote_ok_of_found ref db name email code cd c hu hc hf
    simp only [stateAfter, hres]
    intro c'' h''
    simp only at h'' ⊢
    rcases List.mem_map.mp h'' with ⟨s, hs, hmap⟩
    by_cases hsid : s.id = c.id
    · have hsc : s = c := id_inj_of_nodup db.countries hids s hs c hcmem hsid
      rw [hsc, if_pos rfl] at hmap
      have hcid : c''.id = c.id := by rw [← hmap]
      have hcv : c''.votes = c.votes + 1 := by rw [← hmap]
      rw [filter_users_append_pos _ _ _ (by simp [hcid])]
      rw [hcid, ← hcons c hcmem]
      exact hcv
    · rw [if_neg hsid] at hmap
      have hcid : c''.id ≠ c.id := by rw [← hmap]; exact hsid
      rw [filter_users_append_neg _ _ _ (by simp [Ne.symm hcid])]
      rw [← hmap]
      exact hcons s hs

/-- C5: when no `Country` row with the submitted code exists, `submitVote`
appends exactly the row built by `newCountryRow` — votes initialized to 0
(the appended row shows that initial tally bumped once by the vote
transaction), capital the first element of the reference record's capital
list or `"N/A"` when that list is empty or absent, `subRegion` `"N/A"`
when the reference `subregion` is absent, `region` copied from the
reference record (the record's type always carries a region, so no
fallback applies). -/
theorem submitVote_lazy_creation (ref : List RestCountry) (db : DB)
    (name email code : String) (cd : RestCountry)
    (hwf : db.wf)
    (hu : findUserByEmail db email = none)
    (hc : findByCode ref code = some cd)
    (ha : findCountryByCode db code = none) :
    (∃ db', submitVote ref db name email code = .ok db' ∧
      db'.countries = db.countries ++
        [{ newCountryRow db.nextId code cd with
             votes := (newCountryRow db.nextId code cd).votes + 1 }]) ∧
    (newCountryRow db.nextId code cd).votes = 0 ∧
    (newCountryRow db.nextId code cd).code = code ∧
    (newCountryRow db.nextId code cd).name = cd.nameCommon ∧
    (cd.capital = none →
      (newCountryRow db.nextId code cd).capital = some "N/A") ∧
    (cd.capital = some [] →
      (newCountryRow db.nextId code cd).capital = some "N/A") ∧
    (∀ x xs, cd.capital = some (x :: xs) → x ≠ "" →
      (newCountryRow db.nextId code cd).capital = some x) ∧
    (newCountryRow db.nextId code cd).region = cd.region ∧
    (cd.subregion = none →
      (newCountryRow db.nextId code cd).subRegion = "N/A") ∧
    (∀ s, cd.subregion = some s → s ≠ "" →
      (newCountryRow db.nextId code cd).subRegion = s) := by
  obtain ⟨hids, hcodes, hemails, hclt, hult, hfk⟩ := hwf
  have hnotmem : ∀ r ∈ db.countries, r.id ≠ db.nextId :=
    fun r hr => Nat.ne_of_lt (hclt r hr)
  have hincr : incrVotes db.nextId
      (db.countries ++ [newCountryRow db.nextId code cd]) =
      db.countries ++
        [{ newCountryRow db.nextId code cd with votes := 1 }] := by
    rw [incrVotes_append, incrVotes_of_not_mem _ _ hnotmem]
    simp [incrVotes, newCountryRow]
  refine ⟨⟨_, submitVote_ok_of_new ref db name email code cd hu hc ha, ?_⟩,
    rfl, rfl, rfl, ?_, ?_, ?_, rfl, ?_, ?_⟩
  · simp only
    rw [hincr]
    rfl
  · intro h
    simp [newCountryRow, h, orNA]
  · intro h
    simp [newCountryRow, h, orNA]
  · intro x xs h hx
    simp [newCountryRow, h, orNA, hx]
  · intro h
    simp [newCountryRow, h, orNA]
  · intro s h hs
    simp [newCountryRow, h, orNA, hs]

/-! ## Lemmas about the read path -/

theorem mem_insertDesc (x c : CountryRow) (l : List CountryRow) :
    x ∈ insertDesc c l ↔ x = c ∨ x ∈ l := by
  induction l with
  | nil => simp [insertDesc]
  | cons d ds ih =>
    unfold insertDesc
    by_cases h : d.votes < c.votes
    · rw [if_pos h]
      simp [List.mem_cons]
      try tauto
    · rw [if_neg h]
      simp [List.mem_cons, ih]
      try tauto

theorem pairwise_insertDesc (c : CountryRow) (l : List CountryRow)
    (h : l.Pairwise (fun a b => b.votes ≤ a.votes)) :
    (insertDesc c l).Pairwise (fun a b => b.votes ≤ a.votes) := by
  induction l with
  | nil => simp [insertDesc]
  | cons d ds ih =>
    rcases List.pairwise_cons.mp h with ⟨hd, hds⟩
    unfold insertDesc
    by_cases hv : d.votes < c.votes
    · rw [if_pos hv]
      refine List.pairwise_cons.mpr ⟨?_, h⟩
      intro b hb
      rcases List.mem_cons.mp hb with rfl | hb'
      · exact Nat.le_of_lt hv
      · exact Nat.le_trans (hd b hb') (Nat.le_of_lt hv)
    · rw [if_neg hv]
      refine List.pairwise_cons.mpr ⟨?_, ih hds⟩
      intro b hb
      rcases (mem_insertDesc b c ds).mp hb with rfl | hb'
      · exact Nat.le_of_not_lt hv
      · exact hd b hb'

theorem sortDesc_sorted (l : List CountryRow) :
    (sortDesc l).Pairwise (fun a b => b.votes ≤ a.votes) := by
  induction l with
  | nil => simp [sortDesc]
  | cons c cs ih => exact pairwise_insertDesc c (sortDesc cs) ih

theorem mem_sortDesc (x : CountryRow) (l : List CountryRow) :
    x ∈ sortDesc l ↔ x ∈ l := by
  induction l with
  | nil => simp [sortDesc]
  | cons c cs ih =>
    show x ∈ insertDesc c (sortDesc cs) ↔ _
    rw [mem_insertDesc, ih]
    simp [List.mem_cons]

theorem length_rankRows (i : Nat) (l : List CountryRow) :
    (rankRows i l).length = l.length := by
  induction l generalizing i with
  | nil => rfl
  | cons c cs ih => simp [rankRows, ih]

theorem rank_map_rankRows (i : Nat) (l : List CountryRow) :
    (rankRows i l).map (fun e => e.rank) =
      List.range' (i + 1) l.length := by
  induction l generalizing i with
  | nil => rfl
  | cons c cs ih => simp [rankRows, toDto, List.range'_succ, ih]

theorem votes_map_rankRows (i : Nat) (l : List CountryRow) :
    (rankRows i l).map (fun e => e.votes) = l.map (fun c => c.votes) := by
  induction l generalizing i with
  | nil => rfl
  | cons c cs ih => simp [rankRows, toDto, ih]

theorem mem_rankRows_votes (e : TopCountryDto) (i : Nat)
    (l : List CountryRow) (h : e ∈ rankRows i l) :
    ∃ c ∈ l, e.votes = c.votes := by
  induction l generalizing i with
  | nil => simp [rankRows] at h
  | cons c cs ih =>
    simp only [rankRows] at h
    rcases List.mem_cons.mp h with rfl | h'
    · exact ⟨c, List.mem_cons_self c cs, rfl⟩
    · obtain ⟨c', hc', hv⟩ := ih (i + 1) h'
      exact ⟨c', List.mem_cons_of_mem c hc', hv⟩

/-- Every query of the shared `findMany(..., take: 10)` shape returns at
most 10 entries, only rows passing the filter, votes non-increasing by
position, and ranks `1, 2, …` by position. -/
theorem queryRows_shape (db : DB) (p : CountryRow → Bool)
    (hp : ∀ c, p c = true → 0 < c.votes) :
    (queryRows db p).length ≤ 10 ∧
    (∀ e ∈ queryRows db p, 0 < e.votes) ∧
    ((queryRows db p).map (fun e => e.votes)).Pairwise
      (fun a b => b ≤ a) ∧
    (queryRows db p).map (fun e => e.rank) =
      List.range' 1 (queryRows db p).length := by
  unfold queryRows
  refine ⟨?_, ?_, ?_, ?_⟩
  · rw [length_rankRows, List.length_take]
    exact inf_le_left
  · intro e he
    obtain ⟨c, hc, hv⟩ := mem_rankRows_votes e 0 _ he
    have hc' : c ∈ sortDesc (db.countries.filter p) :=
      List.take_subset 10 _ hc
    have hc'' : c ∈ db.countries.filter p := (mem_sortDesc c _).mp hc'
    rw [hv]
    exact hp c (List.of_mem_filter hc'')
  · rw [votes_map_rankRows]
    refine List.pairwise_map.mpr ?_
    exact (sortDesc_sorted _).sublist (List.take_sublist 10 _)
  · rw [rank_map_rankRows, length_rankRows]

/-- C4: `getTopCountries` and `searchCountries` (for every query value)
return at most 10 entries, never an entry with a zero tally, entries in
non-increasing vote order by position, and ranks `1, 2, 3, …` assigned by
output position (so ties get consecutive ranks). -/
theorem leaderboard_shape (db : DB) (q : Option String) :
    ((getTopCountries db).length ≤ 10 ∧
     (∀ e ∈ getTopCountries db, 0 < e.votes) ∧
     ((getTopCountries db).map (fun e => e.votes)).Pairwise
       (fun a b => b ≤ a) ∧
     (getTopCountries db).map (fun e => e.rank) =
       List.range' 1 (getTopCountries db).length) ∧
    ((searchCountries db q).length ≤ 10 ∧
     (∀ e ∈ searchCountries db q, 0 < e.votes) ∧
     ((searchCountries db q).map (fun e => e.votes)).Pairwise
       (fun a b => b ≤ a) ∧
     (searchCountries db q).map (fun e => e.rank) =
       List.range' 1 (searchCountries db q).length) := by
  have htop := queryRows_shape db (fun c => decide (0 < c.votes))
    (fun c h => by simpa using h)
  constructor
  · exact htop
  · rcases q with _ | q
    · exact htop
    · simp only [searchCountries]
      split
      · exact htop
      · refine queryRows_shape db _ (fun c hc => ?_)
        have := (Bool.and_eq_true _ _).mp hc
        simpa using this.1

/-- C7: an empty or all-whitespace query makes `searchCountries` behave
identically to `getTopCountries`. -/
theorem searchCountries_blank_query (db : DB) (q : String)
    (h : jsTrim q = []) :
    searchCountries db (some q) = getTopCountries db := by
  simp [searchCountries, h]

/-- C10: a wholly absent query value (`undefined`/`null`, as when
`GET /votes/search` carries no `q` parameter) makes `searchCountries`
return exactly `getTopCountries()` rather than fail. -/
theorem searchCountries_no_query (db : DB) :
    searchCountries db none = getTopCountries db := rfl

/-- After a successful fetch the cache is hit on every later call: no
outbound request, the identical stored list every time. -/
theorem runCalls_cached (nets : List NetResponse)
    (data : List RestCountry) :
    runCalls nets { cache := some data } =
      (nets.map (fun _ => Except.ok data), { cache := some data }, 0) := by
  induction nets with
  | nil => rfl
  | cons net nets ih => simp [runCalls, getAllCountries, ih]

/-- C8: across N calls whose first fetch succeeds, exactly one outbound
fetch is issued and every call returns the identical cached list; a
failed fetch does not populate the cache and surfaces the generic
`'Failed to fetch countries'` error, and the following call contacts the
network again; `getCountryByCode` and `getCountriesByCodes` hit the same
cache without fetching. -/
theorem referenceCache_behavior :
    (∀ (data : List RestCountry) (nets : List NetResponse),
      runCalls (Except.ok data :: nets) { cache := none } =
        (Except.ok data :: nets.map (fun _ => Except.ok data),
         { cache := some data }, 1)) ∧
    (∀ e : String, getAllCountries (Except.error e) { cache := none } =
      (Except.error "Failed to fetch countries", { cache := none }, 1)) ∧
    (∀ (e : String) (nets : List NetResponse),
      runCalls (Except.error e :: nets) { cache := none } =
        (Except.error "Failed to fetch countries" ::
            (runCalls nets { cache := none }).1,
         (runCalls nets { cache := none }).2.1,
         1 + (runCalls nets { cache := none }).2.2)) ∧
    (∀ (net : NetResponse) (data : List RestCountry) (code : String),
      getCountryByCode net { cache := some data } code =
        (Except.ok (findByCode data code), { cache := some data }, 0)) ∧
    (∀ (net : NetResponse) (data : List RestCountry)
      (codes : List String),
      (getCountriesByCodes net { cache := some data } codes).2 =
        ({ cache := some data }, 0)) := by
  refine ⟨?_, ?_, ?_, ?_, ?_⟩
  · intro data nets
    simp [runCalls, getAllCountries, runCalls_cached]
  · intro e
    rfl
  · intro e nets
    rcases hr : runCalls nets { cache := none } with ⟨rs, s, k⟩
    simp [runCalls, getAllCountries, hr]
  · intro net data code
    rfl
  · intro net data codes
    rfl

/-- C9: the reference-data lookup by code is an exact, case-sensitive
comparison against `cca3`: a produced record is a member with exactly
that `cca3`; the lookup yields the not-found value `none` (never an
exception) precisely when no record's `cca3` equals the code — in
particular for a code differing from a known one only in letter case;
and `getCountryByCode` applies this lookup to whatever list
`getAllCountries` produced. -/
theorem getCountryByCode_caseSensitive (countries : List RestCountry)
    (code : String) :
    (∀ c, findByCode countries code = some c →
      c ∈ countries ∧ c.cca3 = code) ∧
    (findByCode countries code = none ↔
      ∀ c ∈ countries, c.cca3 ≠ code) ∧
    (∀ (net : NetResponse) (s s' : CacheState) (l : List RestCountry)
      (k : Nat), getAllCountries net s = (.ok l, s', k) →
      getCountryByCode net s code = (.ok (findByCode l code), s', k)) := by
  refine ⟨?_, ?_, ?_⟩
  · intro c h
    exact ⟨List.mem_of_find?_eq_some h, by simpa using List.find?_some h⟩
  · unfold findByCode
    rw [List.find?_eq_none]
    constructor
    · intro h c hc
      simpa using h c hc
    · intro h c hc
      simp [h c hc]
  · intro net s s' l k h
    simp [getCountryByCode, h]

/-- C6 counterexample: a generic error entering `submitVote`'s catch
block leaves it unchanged — it is not replaced by the
`InternalServerErrorException` that re-wrapping would produce. -/
theorem submitVoteCatch_not_rewrapped_cex :
    submitVoteCatch (HttpException.generic "database connection lost") =
      HttpException.generic "database connection lost" ∧
    submitVoteCatch (HttpException.generic "database connection lost") ≠
      submitVoteCatchSpec
        (HttpException.generic "database connection lost") :=
  ⟨rfl, by decide⟩

/-- C6 amended: every exception crossing `submitVote`'s catch block —
the two typed signals and any other error alike — is re-thrown
unchanged; untyped errors are merely logged with a 500 status first,
never re-wrapped inside `submitVote`. -/
theorem submitVoteCatch_passthrough (e : HttpException) :
    submitVoteCatch e = e := by
  cases e <;> rfl

/-! ## Concrete fixtures and witnesses -/

/-- A concrete reference record (Argentina) for the witnesses. -/
def argRecW : RestCountry :=
  { nameCommon := "Argentina"
    nameOfficial := "Argentine Republic"
    cca3 := "ARG"
    capital := some ["Buenos Aires"]
    region := "Americas"
    subregion := some "South America" }

/-- A concrete reference record (Brazil) for the witnesses. -/
def braRecW : RestCountry :=
  { nameCommon := "Brazil"
    nameOfficial := "Federative Republic of Brazil"
    cca3 := "BRA"
    capital := some ["Brasilia"]
    region := "Americas"
    subregion := some "South America" }

/-- The reference list used by the witnesses. -/
def refW : List RestCountry := [argRecW, braRecW]

/-- The single country row of `dbW`. -/
def argRowW : CountryRow :=
  { id := 0
    code := "ARG"
    name := "Argentina"
    capital := some "Buenos Aires"
    region := "Americas"
    subRegion := "South America"
    votes := 1 }

/-- The single user row of `dbW`. -/
def beaRowW : UserRow :=
  { id := 1
    name := "Bea"
    email := "b@x.com"
    countryId := 0 }

/-- A concrete well-formed database: Argentina holds one vote. -/
def dbW : DB :=
  { countries := [argRowW]
    users := [beaRowW]
    nextId := 2 }

theorem submitVote_success_effects_witness :
    DB.wf dbW ∧
    findUserByEmail dbW "a@x.com" = none ∧
    findByCode refW "BRA" = some braRecW ∧
    (∃ db', submitVote refW dbW "Ana" "a@x.com" "BRA" = .ok db' ∧
      (∃ uid c', findCountryByCode db' "BRA" = some c' ∧
        db'.users = dbW.users ++
          [{ id := uid, name := "Ana", email := "a@x.com"
             countryId := c'.id }]) ∧
      votesOf db' "BRA" = votesOf dbW "BRA" + 1 ∧
      (∀ r ∈ dbW.countries, r.code ≠ "BRA" → r ∈ db'.countries) ∧
      (∀ r ∈ db'.countries, r.code ≠ "BRA" → r ∈ dbW.countries) ∧
      db'.countries.length = dbW.countries.length +
        (if (findCountryByCode dbW "BRA").isSome then 0 else 1)) :=
  ⟨by decide, by rfl, by rfl,
    submitVote_success_effects refW dbW "Ana" "a@x.com" "BRA" braRecW
      (by decide) (by rfl) (by rfl)⟩

theorem submitVote_error_cases_witness :
    (submitVote refW dbW "Bea" "b@x.com" "XXX" = .error .conflict ↔
      ∃ u ∈ dbW.users, u.email = "b@x.com") ∧
    (submitVote refW dbW "Bea" "b@x.com" "XXX" = .error .badRequest ↔
      ((∀ u ∈ dbW.users, u.email ≠ "b@x.com") ∧
        ∀ c ∈ refW, c.cca3 ≠ "XXX")) ∧
    (∀ e, submitVote refW dbW "Bea" "b@x.com" "XXX" = .error e →
      stateAfter refW dbW "Bea" "b@x.com" "XXX" = dbW) :=
  submitVote_error_cases refW dbW "Bea" "b@x.com" "XXX"

theorem submitVote_preserves_counters_witness :
    DB.wf dbW ∧ countersConsistent dbW ∧
    countersConsistent (stateAfter refW dbW "Ana" "a@x.com" "BRA") :=
  ⟨by decide, by decide,
    submitVote_preserves_counters refW dbW "Ana" "a@x.com" "BRA"
      (by decide) (by decide)⟩

theorem leaderboard_shape_witness :
    ((getTopCountries dbW).length ≤ 10 ∧
     (∀ e ∈ getTopCountries dbW, 0 < e.votes) ∧
     ((getTopCountries dbW).map (fun e => e.votes)).Pairwise
       (fun a b => b ≤ a) ∧
     (getTopCountries dbW).map (fun e => e.rank) =
       List.range' 1 (getTopCountries dbW).length) ∧
    ((searchCountries dbW (some "amer")).length ≤ 10 ∧
     (∀ e ∈ searchCountries dbW (some "amer"), 0 < e.votes) ∧
     ((searchCountries dbW (some "amer")).map (fun e => e.votes)).Pairwise
       (fun a b => b ≤ a) ∧
     (searchCountries dbW (some "amer")).map (fun e => e.rank) =
       List.range' 1 (searchCountries dbW (some "amer")).length) :=
  leaderboard_shape dbW (some "amer")

theorem submitVote_lazy_creation_witness :
    DB.wf dbW ∧
    findUserByEmail dbW "a@x.com" = none ∧
    findByCode refW "BRA" = some braRecW ∧
    findCountryByCode dbW "BRA" = none ∧
    ((∃ db', submitVote refW dbW "Ana" "a@x.com" "BRA" = .ok db' ∧
      db'.countries = dbW.countries ++
        [{ newCountryRow dbW.nextId "BRA" braRecW with
             votes := (newCountryRow dbW.nextId "BRA" braRecW).votes + 1 }])
      ∧
    (newCountryRow dbW.nextId "BRA" braRecW).votes = 0 ∧
    (newCountryRow dbW.nextId "BRA" braRecW).code = "BRA" ∧
    (newCountryRow dbW.nextId "BRA" braRecW).name = braRecW.nameCommon ∧
    (braRecW.capital = none →
      (newCountryRow dbW.nextId "BRA" braRecW).capital = some "N/A") ∧
    (braRecW.capital = some [] →
      (newCountryRow dbW.nextId "BRA" braRecW).capital = some "N/A") ∧
    (∀ x xs, braRecW.capital = some (x :: xs) → x ≠ "" →
      (newCountryRow dbW.nextId "BRA" braRecW).capital = some x) ∧
    (newCountryRow dbW.nextId "BRA" braRecW).region = braRecW.region ∧
    (braRecW.subregion = none →
      (newCountryRow dbW.nextId "BRA" braRecW).subRegion = "N/A") ∧
    (∀ s, braRecW.subregion = some s → s ≠ "" →
      (newCountryRow dbW.nextId "BRA" braRecW).subRegion = s)) :=
  ⟨by decide, by rfl, by rfl, by rfl,
    submitVote_lazy_creation refW dbW "Ana" "a@x.com" "BRA" braRecW
      (by decide) (by rfl) (by rfl) (by rfl)⟩

theorem searchCountries_blank_query_witness :
    jsTrim "  " = [] ∧
    searchCountries dbW (some "  ") = getTopCountries dbW :=
  ⟨by decide, searchCountries_blank_query dbW "  " (by decide)⟩

theorem referenceCache_behavior_witness :
    runCalls [Except.ok refW, Except.error "down"] { cache := none } =
      (Except.ok refW ::
        [(Except.error "down" : NetResponse)].map
          (fun _ => Except.ok refW),
       { cache := some refW }, 1) :=
  referenceCache_behavior.1 refW [Except.error "down"]

theorem getCountryByCode_caseSensitive_witness :
    (∀ c ∈ refW, c.cca3 ≠ "arg") ∧ findByCode refW "arg" = none :=
  ⟨by decide,
    (getCountryByCode_caseSensitive refW "arg").2.1.mpr (by decide)⟩

theorem submitVoteCatch_passthrough_witness :
    submitVoteCatch (HttpException.badRequest "Invalid country code") =
      HttpException.badRequest "Invalid country code" :=
  submitVoteCatch_passthrough
    (HttpException.badRequest "Invalid country code")

end CountryVote

